import Mathlib

/-!
Verification development for the resume / job-description matching engine.

The engine (source: functions/index.js) is a straight-line pipeline:
normalize text, tokenize, build a term-frequency map, extract top-K
keywords, compute keyword overlap and cosine similarity, blend them into a
weighted score, and generate feedback messages.  The definitions below are
a shallow embedding of that pipeline:

* JavaScript strings are Lean `String`s (operations work on `String.data`,
  the underlying character list);
* `String.prototype.toLowerCase` is modelled by the per-character ASCII
  lowercase mapping `Char.toLower` (the source text classes only keep
  ASCII characters anyway);
* JavaScript numbers are modelled exactly: the accumulated dot products
  and norms are natural numbers, percentages are rationals, and the cosine
  value (which involves `Math.sqrt`) lives in `ℝ`; `Math.round` is
  `round : ℝ → ℤ`, i.e. `⌊x + 1/2⌋`, which agrees with JavaScript
  semantics;
* the insertion-ordered JavaScript object used as a frequency map is an
  association list whose keys appear in first-insertion order, and the
  insertion-ordered `Set` is modelled by the first-occurrence
  deduplication `setDedup`;
* `Array.prototype.sort` (stable in ECMAScript 2019+) is `List.mergeSort`.
-/

namespace ResumeMatcher

/-- The fixed English stopword set of the source (the comma-separated
string literal, split on commas). -/
def STOPWORDS : List String :=
  ["a", "about", "above", "after", "again", "against", "all", "am", "an", "and", "any",
   "are", "as", "at", "be", "because", "been", "before", "being", "below", "between",
   "both", "but", "by", "could", "did", "do", "does", "doing", "down", "during",
   "each", "few", "for", "from", "further", "had", "has", "have", "having", "he",
   "her", "here", "hers", "him", "his", "how", "i", "if", "in", "into", "is", "it",
   "its", "itself", "just", "me", "more", "most", "my", "myself", "no", "nor", "not",
   "of", "off", "on", "once", "only", "or", "other", "ought", "our", "ours",
   "ourselves", "out", "over", "own", "same", "she", "should", "so", "some", "such",
   "than", "that", "the", "their", "theirs", "them", "themselves", "then", "there",
   "these", "they", "this", "those", "through", "to", "too", "under", "until", "up",
   "very", "was", "we", "were", "what", "when", "where", "which", "while", "who",
   "whom", "why", "with", "would", "you", "your", "yours", "yourself", "yourselves"]

/-- The ECMAScript whitespace class `\s`: ASCII whitespace, NBSP, Ogham
space mark, the U+2000..U+200A range, line/paragraph separators, narrow
no-break space, medium mathematical space, ideographic space and BOM. -/
def isJsWs (c : Char) : Bool :=
  c.toNat = 32 || c.toNat = 9 || c.toNat = 10 || c.toNat = 11 || c.toNat = 12 ||
  c.toNat = 13 || c.toNat = 160 || c.toNat = 5760 ||
  (8192 ≤ c.toNat && c.toNat ≤ 8202) ||
  c.toNat = 8232 || c.toNat = 8233 || c.toNat = 8239 || c.toNat = 8287 ||
  c.toNat = 12288 || c.toNat = 65279

/-- The character class kept by the normalizer's final substitution,
`[a-z0-9\s+#\-_]`: lowercase ASCII letters (code points 97 to 122), ASCII
digits (48 to 57), whitespace, and the four symbols `+` (43), `#` (35),
`-` (45) and `_` (95). -/
def keepChar (c : Char) : Bool :=
  (97 ≤ c.toNat && c.toNat ≤ 122) || (48 ≤ c.toNat && c.toNat ≤ 57) || isJsWs c ||
  c.toNat = 43 || c.toNat = 35 || c.toNat = 45 || c.toNat = 95

/-- The curly-quote class of the normalizer, U+2018, U+2019, U+201C and
U+201D, each replaced by a plain apostrophe. -/
def curlyQuote (c : Char) : Bool :=
  c.toNat = 8216 || c.toNat = 8217 || c.toNat = 8220 || c.toNat = 8221

/-- Per-character action of `normalizeText`: lowercase, replace curly
quotes by an apostrophe (`Char.ofNat 39`), then replace anything outside
the kept class by a space. -/
def normChar (c : Char) : Char :=
  let c1 := c.toLower
  let c2 := if curlyQuote c1 then Char.ofNat 39 else c1
  if keepChar c2 then c2 else ' '

/-- `normalizeText` from the source: falsy (empty) input maps to the empty
string, otherwise the three global character substitutions are applied. -/
def normalizeText (text : String) : String :=
  if text = "" then "" else String.mk (text.data.map normChar)

/-- Splitting on runs of whitespace, keeping only the non-empty fragments:
the semantics of `split(/\s+/).filter(Boolean)`.  The accumulator holds
the current (possibly empty) run of non-whitespace characters. -/
def wsSplitAux : List Char → List Char → List (List Char)
  | [], acc => if acc.isEmpty then [] else [acc]
  | c :: cs, acc =>
    if isJsWs c then
      if acc.isEmpty then wsSplitAux cs [] else acc :: wsSplitAux cs []
    else wsSplitAux cs (acc ++ [c])

/-- The maximal non-whitespace runs of a character list, in order. -/
def splitOnWs (cs : List Char) : List (List Char) :=
  wsSplitAux cs []

/-- The test `/^\d+$/`: a non-empty string all of whose characters are
ASCII digits. -/
def isAllDigits (t : String) : Bool :=
  !t.data.isEmpty && t.data.all (fun c => '0' ≤ c && c ≤ '9')

/-- The per-token filter of `tokenize`: a token survives when it is not
shorter than `minLen`, is not a stopword, and is not purely numeric. -/
def tokenKeep (minLen : Nat) (t : String) : Bool :=
  !(t.length < minLen) && !(STOPWORDS.contains t) && !(isAllDigits t)

/-- `tokenize` from the source: normalize, split on whitespace runs, then
keep the tokens passing `tokenKeep`.  Order is preserved and duplicates
are kept. -/
def tokenize (text : String) (minLen : Nat) : List String :=
  (((splitOnWs (normalizeText text).data).map (fun cs => String.mk cs)).filter
    (tokenKeep minLen))

/-- A term-frequency map: an association list from token to count whose
keys appear in first-insertion order, modelling the insertion-ordered
JavaScript object of `buildFrequency`. -/
abbrev FreqMap := List (String × Nat)

/-- One step of `buildFrequency`: bump the count of `t`, appending a fresh
entry `(t, 1)` when `t` is not yet a key. -/
def bumpFreq : FreqMap → String → FreqMap
  | [], t => [(t, 1)]
  | (k, n) :: rest, t =>
    if k = t then (k, n + 1) :: rest else (k, n) :: bumpFreq rest t

/-- `buildFrequency` from the source: fold the tokens through `bumpFreq`,
starting from the empty object. -/
def buildFrequency (tokens : List String) : FreqMap :=
  tokens.foldl bumpFreq []

/-- Reading a frequency map with a default of zero: `freq[k] || 0`. -/
def freqGet (m : FreqMap) (k : String) : Nat :=
  match m.find? (fun e => e.1 == k) with
  | some e => e.2
  | none => 0

/-- One insertion step of a JavaScript `Set`: append the element unless it
is already present. -/
def insOnce (acc : List String) (x : String) : List String :=
  if x ∈ acc then acc else acc ++ [x]

/-- First-occurrence deduplication: the element sequence of
`new Set(list)` in iteration (insertion) order. -/
def setDedup (l : List String) : List String :=
  l.foldl insOnce []

/-- The key set iterated over by `cosineSimilarity`:
`new Set([...Object.keys(freqA), ...Object.keys(freqB)])`. -/
def cosKeys (A B : FreqMap) : List String :=
  setDedup (A.map Prod.fst ++ B.map Prod.fst)

/-- The accumulated dot product of `cosineSimilarity`. -/
def cosDot (A B : FreqMap) : Nat :=
  ((cosKeys A B).map (fun k => freqGet A k * freqGet B k)).sum

/-- The accumulated squared norm of the first map in `cosineSimilarity`. -/
def cosNormA (A B : FreqMap) : Nat :=
  ((cosKeys A B).map (fun k => freqGet A k * freqGet A k)).sum

/-- The accumulated squared norm of the second map in `cosineSimilarity`. -/
def cosNormB (A B : FreqMap) : Nat :=
  ((cosKeys A B).map (fun k => freqGet B k * freqGet B k)).sum

/-- `cosineSimilarity` from the source: `0` when either squared norm is
zero, otherwise `dot / (sqrt(normA) * sqrt(normB))`. -/
noncomputable def cosineSimilarity (A B : FreqMap) : ℝ :=
  if cosNormA A B = 0 ∨ cosNormB A B = 0 then 0
  else (cosDot A B : ℝ) / (Real.sqrt (cosNormA A B) * Real.sqrt (cosNormB A B))

/-- The sort order of `extractTopKeywords`: the comparator
`(a, b) => b[1] - a[1]` keeps `a` no later than `b` exactly when
`b.2 ≤ a.2` (descending counts; the sort is stable). -/
def countDescLe (a b : String × Nat) : Bool :=
  b.2 ≤ a.2

/-- `extractTopKeywords` from the source: build the frequency map, stable
sort its entries by descending count, truncate to `topK`, keep the token
names. -/
def extractTopKeywords (tokens : List String) (topK : Nat) : List String :=
  (((buildFrequency tokens).mergeSort countDescLe).take topK).map Prod.fst

/-- The record returned by `matchKeywords`.  `overlapPct` is exact, as a
rational. -/
structure MatchResult where
  matched : List String
  missing : List String
  jdCount : Nat
  resumeCount : Nat
  overlapPct : ℚ

/-- `matchKeywords` from the source: deduplicate both keyword lists,
classify every jd keyword (in set-iteration order) as matched or missing,
and compute the overlap percentage, zero when the jd set is empty. -/
def matchKeywords (jdKeywords resumeKeywords : List String) : MatchResult :=
  let jdSet := setDedup jdKeywords
  let resumeSet := setDedup resumeKeywords
  let matched := jdSet.filter (fun k => resumeSet.contains k)
  let missing := jdSet.filter (fun k => !(resumeSet.contains k))
  let jdCount := jdSet.length
  let resumeCount := resumeSet.length
  let overlapPct : ℚ :=
    if jdCount = 0 then 0 else ((matched.length : ℚ) / (jdCount : ℚ)) * 100
  ⟨matched, missing, jdCount, resumeCount, overlapPct⟩

def excellentMsg : String :=
  "Excellent fit — the resume is highly aligned with the job description."

def goodMsg : String :=
  "Good fit — candidate is a strong match with a few improvement areas."

def partialMsg : String :=
  "Partial fit — some relevant skills present but there are notable gaps."

def lowMsg : String :=
  "Low fit — there are significant gaps in alignment with this role."

def noGapsMsg : String :=
  "No major JD keywords appear to be missing in the resume."

def tailorMsg : String :=
  "Consider tailoring the resume by explicitly mentioning relevant tools, technologies, and responsibilities from the JD."

def readyMsg : String :=
  "Candidate looks ready for this role. Focus the interview on depth and real projects."

/-- The message listing all missing keywords (used for 1 to 8 items). -/
def missingListMsg (missing : List String) : String :=
  "Missing important keywords/skills: " ++ String.intercalate ", " missing ++ "."

/-- The message reporting the total count and the first 8 missing
keywords (used for more than 8 items). -/
def missingManyMsg (missing : List String) : String :=
  "Missing " ++ toString missing.length ++ " JD keywords. Key missing skills: " ++
    String.intercalate ", " (missing.take 8) ++ "."

/-- `generateFeedback` from the source: the three pushed messages, in
order — the tier message on `score`, the missing-keyword message, and the
closing advice message.  The score handed over by the pipeline is the
rounded match score, an exact rational. -/
def generateFeedback (score : ℚ) (missing : List String) : List String :=
  [if 85 ≤ score then excellentMsg
   else if 65 ≤ score then goodMsg
   else if 40 ≤ score then partialMsg
   else lowMsg,
   if 0 < missing.length ∧ missing.length ≤ 8 then missingListMsg missing
   else if 8 < missing.length then missingManyMsg missing
   else noGapsMsg,
   if score < 85 then tailorMsg else readyMsg]

/-- Step 3 of the handler: the `matchKeywords` result on the top 200 jd
keywords and top 400 resume keywords (tokenized with `minLen = 2`). -/
def matchResultOf (jd_text resume_text : String) : MatchResult :=
  matchKeywords (extractTopKeywords (tokenize jd_text 2) 200)
    (extractTopKeywords (tokenize resume_text 2) 400)

/-- Step 4 of the handler: cosine similarity of the two frequency maps. -/
noncomputable def semanticSimilarityOf (jd_text resume_text : String) : ℝ :=
  cosineSimilarity (buildFrequency (tokenize jd_text 2))
    (buildFrequency (tokenize resume_text 2))

/-- Step 5 of the handler, before rounding:
`semanticScorePct * semanticWeight + overlapPct * keywordWeight` with the
fixed weights 0.6 and 0.4. -/
noncomputable def finalScoreOf (jd_text resume_text : String) : ℝ :=
  (semanticSimilarityOf jd_text resume_text * 100) * 0.6 +
    ((matchResultOf jd_text resume_text).overlapPct : ℝ) * 0.4

/-- Step 5 of the handler, rounding to two decimals:
`Math.round(finalScore * 100) / 100`, kept as an exact rational. -/
noncomputable def matchScoreOf (jd_text resume_text : String) : ℚ :=
  ((round (finalScoreOf jd_text resume_text * 100) : ℤ) : ℚ) / 100

/-- The success response body of the handler. -/
structure ScoreResult where
  match_score : ℚ
  semantic_similarity : ℝ
  overlap_pct : ℚ
  skills_matched : List String
  missing_skills : List String
  jd_skill_count : Nat
  resume_skill_count : Nat
  feedback : List String

/-- The core scoring pipeline (the body of the `try` block): tokenize
both texts, extract keywords, match them, compute cosine similarity,
blend, round, and generate feedback. -/
noncomputable def matchCore (jd_text resume_text : String) : ScoreResult :=
  { match_score := matchScoreOf jd_text resume_text
    semantic_similarity := semanticSimilarityOf jd_text resume_text
    overlap_pct := (matchResultOf jd_text resume_text).overlapPct
    skills_matched := (matchResultOf jd_text resume_text).matched
    missing_skills := (matchResultOf jd_text resume_text).missing
    jd_skill_count := (matchResultOf jd_text resume_text).jdCount
    resume_skill_count := (matchResultOf jd_text resume_text).resumeCount
    feedback := generateFeedback (matchScoreOf jd_text resume_text)
      (matchResultOf jd_text resume_text).missing }

/-- JavaScript falsiness of an optional string field: absent, or the
empty string. -/
def jsFalsy : Option String → Bool
  | none => true
  | some s => s == ""

/-- The fixed validation-error message of the boundary. -/
def requiredMsg : String :=
  "Both \x27jd_text\x27 and \x27resume_text\x27 are required in the request body."

/-- Outcome of the request handler: a client error (status and message)
carrying no score data, or a full score result. -/
inductive BoundaryOutcome where
  | clientError (status : Nat) (message : String)
  | ok (result : ScoreResult)

/-- The boundary of `matchJDandResume` (POST branch): when either field is
falsy the handler returns the 400 client error without running the core;
otherwise it returns the core's result. -/
noncomputable def matchJDandResume (jd_text resume_text : Option String) :
    BoundaryOutcome :=
  if jsFalsy jd_text || jsFalsy resume_text then
    BoundaryOutcome.clientError 400 requiredMsg
  else
    BoundaryOutcome.ok (matchCore (jd_text.getD "") (resume_text.getD ""))

open List

/-! Helper lemmas: strings and characters -/

theorem string_data_ext (a b : String) (h : a.data = b.data) : a = b := by
  cases a
  cases b
  cases h
  rfl

theorem normalizeText_data (x : String) :
    (normalizeText x).data = x.data.map normChar := by
  rw [normalizeText]
  by_cases h : x = ""
  · subst h
    simp
  · rw [if_neg h]

theorem keepChar_cases (c : Char) (h : keepChar c = true) :
    (97 ≤ c.toNat ∧ c.toNat ≤ 122) ∨ (48 ≤ c.toNat ∧ c.toNat ≤ 57) ∨
      c.toNat = 32 ∨ c.toNat = 9 ∨ c.toNat = 10 ∨ c.toNat = 11 ∨ c.toNat = 12 ∨
      c.toNat = 13 ∨ c.toNat = 160 ∨ c.toNat = 5760 ∨
      (8192 ≤ c.toNat ∧ c.toNat ≤ 8202) ∨
      c.toNat = 8232 ∨ c.toNat = 8233 ∨ c.toNat = 8239 ∨ c.toNat = 8287 ∨
      c.toNat = 12288 ∨ c.toNat = 65279 ∨
      c.toNat = 43 ∨ c.toNat = 35 ∨ c.toNat = 45 ∨ c.toNat = 95 := by
  simp only [keepChar, isJsWs, Bool.or_eq_true, Bool.and_eq_true,
    decide_eq_true_eq] at h
  omega

theorem keepChar_toLower (c : Char) (h : keepChar c = true) : c.toLower = c := by
  have hc := keepChar_cases c h
  have hno : ¬(c.toNat ≥ 65 ∧ c.toNat ≤ 90) := by omega
  simp [Char.toLower, hno]

theorem keepChar_not_curly (c : Char) (h : keepChar c = true) :
    curlyQuote c = false := by
  have hc := keepChar_cases c h
  simp only [curlyQuote, Bool.or_eq_false_iff, decide_eq_false_iff_not]
  omega

theorem keepChar_ne_apos (c : Char) (h : keepChar c = true) : c.toNat ≠ 39 := by
  have hc := keepChar_cases c h
  omega

theorem normChar_keep (c : Char) : keepChar (normChar c) = true := by
  simp only [normChar]
  split
  · split
    · assumption
    · decide
  · split
    · assumption
    · decide

theorem normChar_fix (c : Char) (h : keepChar c = true) : normChar c = c := by
  simp only [normChar, keepChar_toLower c h, keepChar_not_curly c h,
    Bool.false_eq_true, if_false, h, if_true]

theorem normChar_idem (c : Char) : normChar (normChar c) = normChar c :=
  normChar_fix _ (normChar_keep c)

theorem wsSplitAux_mem :
    ∀ (cs acc : List Char) (p : List Char), p ∈ wsSplitAux cs acc →
      ∀ c ∈ p, c ∈ acc ∨ c ∈ cs := by
  intro cs
  induction cs with
  | nil =>
    intro acc p hp c hc
    by_cases h : acc.isEmpty
    · simp [wsSplitAux, h] at hp
    · simp [wsSplitAux, h] at hp
      subst hp
      exact Or.inl hc
  | cons d ds ih =>
    intro acc p hp c hc
    simp only [wsSplitAux] at hp
    by_cases h1 : isJsWs d
    · rw [if_pos h1] at hp
      by_cases h2 : acc.isEmpty
      · rw [if_pos h2] at hp
        rcases ih [] p hp c hc with h3 | h3
        · simp at h3
        · exact Or.inr (List.mem_cons_of_mem d h3)
      · rw [if_neg h2] at hp
        rcases List.mem_cons.mp hp with h3 | h3
        · subst h3
          exact Or.inl hc
        · rcases ih [] p h3 c hc with h4 | h4
          · simp at h4
          · exact Or.inr (List.mem_cons_of_mem d h4)
    · rw [if_neg h1] at hp
      rcases ih (acc ++ [d]) p hp c hc with h3 | h3
      · rcases List.mem_append.mp h3 with h4 | h4
        · exact Or.inl h4
        · simp at h4
          subst h4
          exact Or.inr (List.mem_cons_self c ds)
      · exact Or.inr (List.mem_cons_of_mem d h3)

/-! Helper lemmas: first-occurrence deduplication -/

theorem foldl_insOnce_mem (l : List String) :
    ∀ (acc : List String) (x : String),
      x ∈ l.foldl insOnce acc ↔ x ∈ acc ∨ x ∈ l := by
  induction l with
  | nil => simp
  | cons y ys ih =>
    intro acc x
    rw [List.foldl_cons, ih]
    by_cases h : y ∈ acc
    · simp only [insOnce, if_pos h, List.mem_cons]
      constructor
      · rintro (h1 | h1)
        · exact Or.inl h1
        · exact Or.inr (Or.inr h1)
      · rintro (h1 | h1 | h1)
        · exact Or.inl h1
        · subst h1
          exact Or.inl h
        · exact Or.inr h1
    · simp only [insOnce, if_neg h, List.mem_append, List.mem_singleton,
        List.mem_cons]
      tauto

theorem foldl_insOnce_nodup (l : List String) :
    ∀ acc : List String, acc.Nodup → (l.foldl insOnce acc).Nodup := by
  induction l with
  | nil => exact fun acc h => h
  | cons y ys ih =>
    intro acc hacc
    rw [List.foldl_cons]
    apply ih
    by_cases h : y ∈ acc
    · simpa [insOnce, h] using hacc
    · simp [insOnce, h, List.nodup_append, hacc]

theorem foldl_insOnce_of_nodup (l : List String) :
    ∀ acc : List String, (acc ++ l).Nodup → l.foldl insOnce acc = acc ++ l := by
  induction l with
  | nil => simp
  | cons y ys ih =>
    intro acc hacc
    have hy : y ∉ acc := by
      intro hmem
      have := List.disjoint_of_nodup_append hacc
      exact this hmem (List.mem_cons_self y ys)
    rw [List.foldl_cons, insOnce, if_neg hy, ih]
    · simp
    · simpa using hacc

theorem mem_setDedup {x : String} {l : List String} :
    x ∈ setDedup l ↔ x ∈ l := by
  rw [setDedup, foldl_insOnce_mem]
  simp

theorem setDedup_nodup (l : List String) : (setDedup l).Nodup :=
  foldl_insOnce_nodup l [] List.nodup_nil

theorem setDedup_of_nodup {l : List String} (h : l.Nodup) : setDedup l = l := by
  rw [setDedup, foldl_insOnce_of_nodup]
  · simp
  · simpa using h

theorem setDedup_ne_nil {l : List String} (h : l ≠ []) : setDedup l ≠ [] := by
  intro hcon
  rcases List.exists_mem_of_ne_nil l h with ⟨x, hx⟩
  have : x ∈ setDedup l := mem_setDedup.mpr hx
  rw [hcon] at this
  simp at this

/-! Helper lemmas: frequency maps -/

theorem bumpFreq_keys (m : FreqMap) (t : String) :
    (bumpFreq m t).map Prod.fst = insOnce (m.map Prod.fst) t := by
  induction m with
  | nil => simp [bumpFreq, insOnce]
  | cons e rest ih =>
    obtain ⟨k, n⟩ := e
    by_cases h : k = t
    · subst h
      simp [bumpFreq, insOnce]
    · by_cases h2 : t ∈ rest.map Prod.fst
      · simp [bumpFreq, h, ih, insOnce, h2, Ne.symm h]
      · simp [bumpFreq, h, ih, insOnce, h2, Ne.symm h]

theorem buildFrequency_keys (ts : List String) :
    (buildFrequency ts).map Prod.fst = setDedup ts := by
  rw [buildFrequency, setDedup]
  suffices hgen : ∀ m : FreqMap,
      (ts.foldl bumpFreq m).map Prod.fst = ts.foldl insOnce (m.map Prod.fst) by
    simpa using hgen []
  induction ts with
  | nil => intro m; rfl
  | cons t ts' ih =>
    intro m
    rw [List.foldl_cons, List.foldl_cons, ih, bumpFreq_keys]

theorem buildFrequency_keys_nodup (ts : List String) :
    ((buildFrequency ts).map Prod.fst).Nodup := by
  rw [buildFrequency_keys]
  exact setDedup_nodup ts

theorem freqGet_nil (k : String) : freqGet [] k = 0 := rfl

theorem freqGet_cons (k' : String) (n : Nat) (rest : FreqMap) (k : String) :
    freqGet ((k', n) :: rest) k = if k' = k then n else freqGet rest k := by
  by_cases h : k' = k
  · have hb : (k' == k) = true := beq_iff_eq.mpr h
    simp [freqGet, List.find?, hb, h]
  · have hb : (k' == k) = false := beq_eq_false_iff_ne.mpr h
    simp [freqGet, List.find?, hb, h]

theorem freqGet_bumpFreq (m : FreqMap) (t k : String) :
    freqGet (bumpFreq m t) k = if k = t then freqGet m k + 1 else freqGet m k := by
  induction m with
  | nil =>
    by_cases h : k = t
    · subst h
      simp [bumpFreq, freqGet_cons, freqGet_nil]
    · have h2 : ¬(t = k) := fun hc => h hc.symm
      simp [bumpFreq, freqGet_cons, h, h2, freqGet_nil]
  | cons e rest ih =>
    obtain ⟨k', n⟩ := e
    by_cases h1 : k' = t
    · subst h1
      by_cases h2 : k' = k
      · subst h2
        simp [bumpFreq, freqGet_cons]
      · have h3 : ¬(k = k') := fun hc => h2 hc.symm
        simp [bumpFreq, freqGet_cons, h2, h3]
    · by_cases h2 : k' = k
      · subst h2
        simp [bumpFreq, h1, freqGet_cons]
      · simp [bumpFreq, h1, freqGet_cons, h2, ih]

theorem freqGet_foldl (ts : List String) :
    ∀ (m : FreqMap) (k : String),
      freqGet (ts.foldl bumpFreq m) k = freqGet m k + ts.count k := by
  induction ts with
  | nil => simp
  | cons t ts' ih =>
    intro m k
    rw [List.foldl_cons, ih, freqGet_bumpFreq]
    by_cases h : k = t
    · subst h
      simp [List.count_cons]
      omega
    · have : ¬(t = k) := fun hc => h hc.symm
      simp [List.count_cons, this, h]

theorem freqGet_buildFrequency (ts : List String) (k : String) :
    freqGet (buildFrequency ts) k = ts.count k := by
  rw [buildFrequency, freqGet_foldl, freqGet_nil, Nat.zero_add]

theorem freqGet_entry (m : FreqMap) (h : (m.map Prod.fst).Nodup) :
    ∀ e ∈ m, freqGet m e.1 = e.2 := by
  induction m with
  | nil => simp
  | cons f rest ih =>
    obtain ⟨k, n⟩ := f
    intro e he
    rcases List.mem_cons.mp he with h1 | h1
    · subst h1
      simp [freqGet_cons]
    · have hk : k ≠ e.1 := by
        intro hc
        have : e.1 ∈ rest.map Prod.fst := List.mem_map_of_mem Prod.fst h1
        rw [← hc] at this
        exact (List.nodup_cons.mp (by simpa using h)).1 this
      rw [freqGet_cons, if_neg hk]
      exact ih (List.nodup_cons.mp (by simpa using h)).2 e h1

theorem buildFrequency_entry_count (ts : List String) :
    ∀ e ∈ buildFrequency ts, e.2 = ts.count e.1 := by
  intro e he
  rw [← freqGet_buildFrequency ts e.1]
  exact (freqGet_entry (buildFrequency ts) (buildFrequency_keys_nodup ts) e he).symm

theorem buildFrequency_entry_pos (ts : List String) :
    ∀ e ∈ buildFrequency ts, 0 < e.2 := by
  intro e he
  rw [buildFrequency_entry_count ts e he]
  apply List.count_pos_iff.mpr
  have : e.1 ∈ (buildFrequency ts).map Prod.fst := List.mem_map_of_mem Prod.fst he
  rw [buildFrequency_keys] at this
  exact mem_setDedup.mp this

theorem buildFrequency_ne_nil {ts : List String} (h : ts ≠ []) :
    buildFrequency ts ≠ [] := by
  intro hcon
  have := buildFrequency_keys ts
  rw [hcon] at this
  exact setDedup_ne_nil h this.symm

/-! Claim C9: the normalizer is idempotent -/

/-- C9: for every string x, normalizeText (normalizeText x) = normalizeText x —
the normalizer is idempotent. -/
theorem claim_C9 (x : String) :
    normalizeText (normalizeText x) = normalizeText x := by
  apply string_data_ext
  rw [normalizeText_data, normalizeText_data, List.map_map]
  apply List.map_congr_left
  intro c _
  simp only [Function.comp_apply]
  exact normChar_idem c

/-- Witness for C9 at a concrete input. -/
theorem claim_C9_witness :
    normalizeText (normalizeText "Ab, C++!") = normalizeText "Ab, C++!" :=
  claim_C9 "Ab, C++!"

/-! Claim C10: character classes of normalized text -/

/-- C10: every character of the normalizer's output is a lowercase ASCII
letter, an ASCII digit, a whitespace character, or one of + # - _; the
apostrophe (39) substituted for a curly quote is itself replaced by a
space in the same pass, so no apostrophe (39) survives normalization, and
no token of any tokenization contains one. -/
theorem claim_C10 (x : String) :
    (∀ c ∈ (normalizeText x).data,
      (97 ≤ c.toNat ∧ c.toNat ≤ 122) ∨ (48 ≤ c.toNat ∧ c.toNat ≤ 57) ∨
        isJsWs c = true ∨ c.toNat = 43 ∨ c.toNat = 35 ∨ c.toNat = 45 ∨
        c.toNat = 95) ∧
    (∀ c ∈ (normalizeText x).data, c.toNat ≠ 39) ∧
    normChar (Char.ofNat 8217) = ' ' ∧
    (∀ minLen : Nat, ∀ t ∈ tokenize x minLen, ∀ c ∈ t.data, c.toNat ≠ 39) := by
  have hkeep : ∀ c ∈ (normalizeText x).data, keepChar c = true := by
    intro c hc
    rw [normalizeText_data] at hc
    rcases List.mem_map.mp hc with ⟨c0, _, hc0⟩
    rw [← hc0]
    exact normChar_keep c0
  refine ⟨?_, ?_, by decide, ?_⟩
  · intro c hc
    have h := hkeep c hc
    simp only [keepChar, Bool.or_eq_true, Bool.and_eq_true, decide_eq_true_eq] at h
    tauto
  · intro c hc
    exact keepChar_ne_apos c (hkeep c hc)
  · intro minLen t ht c hc
    rw [tokenize] at ht
    have ht2 := (List.mem_filter.mp ht).1
    rcases List.mem_map.mp ht2 with ⟨p, hp, hpt⟩
    have hcp : c ∈ p := by
      rw [← hpt] at hc
      exact hc
    rcases wsSplitAux_mem _ [] p hp c hcp with h | h
    · simp at h
    · exact keepChar_ne_apos c (hkeep c h)

/-- Witness for C10 at a concrete input containing an uppercase letter, a
curly quote and punctuation. -/
theorem claim_C10_witness :
    (∀ c ∈ (normalizeText "A’b!").data,
      (97 ≤ c.toNat ∧ c.toNat ≤ 122) ∨ (48 ≤ c.toNat ∧ c.toNat ≤ 57) ∨
        isJsWs c = true ∨ c.toNat = 43 ∨ c.toNat = 35 ∨ c.toNat = 45 ∨
        c.toNat = 95) ∧
    (∀ c ∈ (normalizeText "A’b!").data, c.toNat ≠ 39) ∧
    normChar (Char.ofNat 8217) = ' ' ∧
    (∀ minLen : Nat, ∀ t ∈ tokenize "A’b!" minLen, ∀ c ∈ t.data,
      c.toNat ≠ 39) :=
  claim_C10 "A’b!"

/-! Claim C7: tokens pass the length, stopword and digit filters -/

/-- C7: for every input string and every minLen ≥ 1, every token emitted
by tokenize has length at least minLen, is not a stopword, and does not
consist entirely of digits. -/
theorem claim_C7 (text : String) (minLen : Nat) (hmin : 1 ≤ minLen)
    (t : String) (ht : t ∈ tokenize text minLen) :
    minLen ≤ t.length ∧ t ∉ STOPWORDS ∧ isAllDigits t = false := by
  have hk := (List.mem_filter.mp ht).2
  simp only [tokenKeep, Bool.and_eq_true, Bool.not_eq_true'] at hk
  obtain ⟨⟨h1, h2⟩, h3⟩ := hk
  refine ⟨?_, ?_, h3⟩
  · simp only [decide_eq_false_iff_not, Nat.not_lt] at h1
    exact h1
  · intro hmem
    simp only [List.contains, List.elem_eq_mem, decide_eq_false_iff_not] at h2
    exact h2 hmem

/-- Witness for C7: the token "hello" of a concrete tokenization. -/
theorem claim_C7_witness :
    (1 ≤ 2 ∧ "hello" ∈ tokenize "hello world" 2) ∧
    (2 ≤ ("hello" : String).length ∧ "hello" ∉ STOPWORDS ∧
      isAllDigits "hello" = false) :=
  ⟨⟨by decide, by decide⟩, claim_C7 "hello world" 2 (by decide) "hello" (by decide)⟩

/-! Claim C4: boundary validation -/

/-- C4: whenever either field is missing or falsy, the boundary returns
the fixed 400 client error and never a core result (the core is not
invoked). -/
theorem claim_C4 (jd_text resume_text : Option String)
    (h : (jsFalsy jd_text || jsFalsy resume_text) = true) :
    matchJDandResume jd_text resume_text =
      BoundaryOutcome.clientError 400 requiredMsg ∧
    ∀ r : ScoreResult,
      matchJDandResume jd_text resume_text ≠ BoundaryOutcome.ok r := by
  have he : matchJDandResume jd_text resume_text =
      BoundaryOutcome.clientError 400 requiredMsg := by
    rw [matchJDandResume, if_pos h]
  exact ⟨he, fun r hr => by rw [he] at hr; exact BoundaryOutcome.noConfusion hr⟩

/-- Witness for C4: an absent jd_text with a present resume_text. -/
theorem claim_C4_witness :
    ((jsFalsy none || jsFalsy (some "x")) = true) ∧
    matchJDandResume none (some "x") =
      BoundaryOutcome.clientError 400 requiredMsg :=
  ⟨by decide, (claim_C4 none (some "x") (by decide)).1⟩

/-! Helper lemmas: keyword matching -/

theorem matchKeywords_matched (jdK resK : List String) :
    (matchKeywords jdK resK).matched =
      (setDedup jdK).filter (fun k => (setDedup resK).contains k) := rfl

theorem matchKeywords_missing (jdK resK : List String) :
    (matchKeywords jdK resK).missing =
      (setDedup jdK).filter (fun k => !((setDedup resK).contains k)) := rfl

theorem matchKeywords_jdCount (jdK resK : List String) :
    (matchKeywords jdK resK).jdCount = (setDedup jdK).length := rfl

theorem matchKeywords_resumeCount (jdK resK : List String) :
    (matchKeywords jdK resK).resumeCount = (setDedup resK).length := rfl

theorem matchKeywords_overlapPct (jdK resK : List String) :
    (matchKeywords jdK resK).overlapPct =
      if (setDedup jdK).length = 0 then 0
      else (((matchKeywords jdK resK).matched.length : ℚ) /
        ((setDedup jdK).length : ℚ)) * 100 := rfl

/-! Claim C6: matched and missing partition the jd keyword set -/

/-- C6: for every pair of keyword lists, matched and missing cover
exactly the distinct jd keywords, they are disjoint, and the overlap
percentage is 100 times the matched fraction of the jd set, zero when the
jd set is empty. -/
theorem claim_C6 (jdK resK : List String) :
    (∀ x, (x ∈ (matchKeywords jdK resK).matched ∨
      x ∈ (matchKeywords jdK resK).missing) ↔ x ∈ jdK) ∧
    (∀ x, ¬(x ∈ (matchKeywords jdK resK).matched ∧
      x ∈ (matchKeywords jdK resK).missing)) ∧
    (matchKeywords jdK resK).matched.Nodup ∧
    (matchKeywords jdK resK).missing.Nodup ∧
    ((matchKeywords jdK resK).jdCount = 0 →
      (matchKeywords jdK resK).overlapPct = 0) ∧
    ((matchKeywords jdK resK).jdCount ≠ 0 →
      (matchKeywords jdK resK).overlapPct =
        100 * ((matchKeywords jdK resK).matched.length : ℚ) /
          ((matchKeywords jdK resK).jdCount : ℚ)) := by
  refine ⟨?_, ?_, ?_, ?_, ?_, ?_⟩
  · intro x
    rw [matchKeywords_matched, matchKeywords_missing]
    constructor
    · rintro (h | h)
      · exact mem_setDedup.mp (List.mem_filter.mp h).1
      · exact mem_setDedup.mp (List.mem_filter.mp h).1
    · intro hx
      by_cases h : (setDedup resK).contains x
      · exact Or.inl (List.mem_filter.mpr ⟨mem_setDedup.mpr hx, h⟩)
      · refine Or.inr (List.mem_filter.mpr ⟨mem_setDedup.mpr hx, ?_⟩)
        simpa using h
  · intro x ⟨h1, h2⟩
    rw [matchKeywords_matched] at h1
    rw [matchKeywords_missing] at h2
    have hb1 := (List.mem_filter.mp h1).2
    have hb2 := (List.mem_filter.mp h2).2
    rw [hb1] at hb2
    simp at hb2
  · rw [matchKeywords_matched]
    exact (setDedup_nodup jdK).filter _
  · rw [matchKeywords_missing]
    exact (setDedup_nodup jdK).filter _
  · intro h
    rw [matchKeywords_jdCount] at h
    rw [matchKeywords_overlapPct, if_pos h]
  · intro h
    rw [matchKeywords_jdCount] at h
    rw [matchKeywords_overlapPct, if_neg h, matchKeywords_jdCount]
    ring

/-- Witness for C6: the overlap formula evaluated on a concrete pair. -/
theorem claim_C6_witness :
    (matchKeywords ["python", "aws"] ["python"]).overlapPct =
      100 * ((matchKeywords ["python", "aws"] ["python"]).matched.length : ℚ) /
        ((matchKeywords ["python", "aws"] ["python"]).jdCount : ℚ) :=
  (claim_C6 ["python", "aws"] ["python"]).2.2.2.2.2 (by decide)

/-! Claim C3: feedback generation -/

/-- C3: generateFeedback always returns exactly three messages — the tier
message selected by the thresholds 85, 65 and 40 on the score (85 itself
selecting the excellent tier), then the missing-keyword message (no-gaps
when empty, the full comma-joined list for 1 to 8 items, the count plus
the first 8 for more), then tailoring advice below 85 and the
interview-readiness message otherwise. -/
theorem claim_C3 (score : ℚ) (missing : List String) :
    (generateFeedback score missing).length = 3 ∧
    (85 ≤ score →
      (generateFeedback score missing)[0]? = some excellentMsg) ∧
    (65 ≤ score ∧ score < 85 →
      (generateFeedback score missing)[0]? = some goodMsg) ∧
    (40 ≤ score ∧ score < 65 →
      (generateFeedback score missing)[0]? = some partialMsg) ∧
    (score < 40 →
      (generateFeedback score missing)[0]? = some lowMsg) ∧
    (missing = [] →
      (generateFeedback score missing)[1]? = some noGapsMsg) ∧
    (1 ≤ missing.length ∧ missing.length ≤ 8 →
      (generateFeedback score missing)[1]? =
        some ("Missing important keywords/skills: " ++
          String.intercalate ", " missing ++ ".")) ∧
    (8 < missing.length →
      (generateFeedback score missing)[1]? =
        some ("Missing " ++ toString missing.length ++
          " JD keywords. Key missing skills: " ++
          String.intercalate ", " (missing.take 8) ++ ".")) ∧
    (score < 85 →
      (generateFeedback score missing)[2]? = some tailorMsg) ∧
    (85 ≤ score →
      (generateFeedback score missing)[2]? = some readyMsg) := by
  refine ⟨by simp [generateFeedback], ?_, ?_, ?_, ?_, ?_, ?_, ?_, ?_, ?_⟩
  · intro h
    simp [generateFeedback, h]
  · intro ⟨h1, h2⟩
    simp [generateFeedback, h1, not_le.mpr h2]
  · intro ⟨h1, h2⟩
    have hn65 : ¬ 65 ≤ score := not_le.mpr h2
    have hn85 : ¬ 85 ≤ score := fun hc => hn65 (le_trans (by norm_num) hc)
    simp [generateFeedback, h1, hn65, hn85]
  · intro h
    have hn40 : ¬ 40 ≤ score := not_le.mpr h
    have hn65 : ¬ 65 ≤ score := fun hc => hn40 (le_trans (by norm_num) hc)
    have hn85 : ¬ 85 ≤ score := fun hc => hn40 (le_trans (by norm_num) hc)
    simp [generateFeedback, hn40, hn65, hn85]
  · intro h
    subst h
    simp [generateFeedback]
  · intro ⟨h1, h2⟩
    have h0 : 0 < missing.length := h1
    simp [generateFeedback, h0, h2, missingListMsg]
  · intro h
    have hn : ¬ missing.length ≤ 8 := not_le.mpr h
    simp [generateFeedback, hn, h, missingManyMsg]
  · intro h
    simp [generateFeedback, h]
  · intro h
    simp [generateFeedback, not_lt.mpr h]

/-- Witness for C3: the boundary scores 85.00 and 84.99 select the
excellent and good tiers respectively. -/
theorem claim_C3_witness :
    ((85 : ℚ) ≤ 85 ∧ (generateFeedback 85 [])[0]? = some excellentMsg) ∧
    ((65 : ℚ) ≤ 8499 / 100 ∧ (8499 / 100 : ℚ) < 85 ∧
      (generateFeedback (8499 / 100) [])[0]? = some goodMsg) :=
  ⟨⟨by norm_num, (claim_C3 85 []).2.1 (by norm_num)⟩,
   ⟨by norm_num, by norm_num,
     (claim_C3 (8499 / 100) []).2.2.1 ⟨by norm_num, by norm_num⟩⟩⟩

/-! Helper lemmas: cosine similarity -/

theorem cast_list_sum_toFinset (K : List String) (hK : K.Nodup) (f : String → ℕ) :
    (((K.map f).sum : ℕ) : ℝ) = ∑ k in K.toFinset, (f k : ℝ) := by
  rw [← List.sum_toFinset f hK]
  exact Nat.cast_sum K.toFinset f

theorem cosKeys_nodup (A B : FreqMap) : (cosKeys A B).Nodup :=
  setDedup_nodup _

theorem cosDot_cast (A B : FreqMap) :
    ((cosDot A B : ℕ) : ℝ) =
      ∑ k in (cosKeys A B).toFinset, (freqGet A k : ℝ) * (freqGet B k : ℝ) := by
  rw [cosDot, cast_list_sum_toFinset (cosKeys A B) (cosKeys_nodup A B)]
  exact Finset.sum_congr rfl fun k _ => by push_cast; ring

theorem cosNormA_cast (A B : FreqMap) :
    ((cosNormA A B : ℕ) : ℝ) =
      ∑ k in (cosKeys A B).toFinset, (freqGet A k : ℝ) ^ 2 := by
  rw [cosNormA, cast_list_sum_toFinset (cosKeys A B) (cosKeys_nodup A B)]
  exact Finset.sum_congr rfl fun k _ => by push_cast; ring

theorem cosNormB_cast (A B : FreqMap) :
    ((cosNormB A B : ℕ) : ℝ) =
      ∑ k in (cosKeys A B).toFinset, (freqGet B k : ℝ) ^ 2 := by
  rw [cosNormB, cast_list_sum_toFinset (cosKeys A B) (cosKeys_nodup A B)]
  exact Finset.sum_congr rfl fun k _ => by push_cast; ring

theorem cosDot_le_sqrt_mul_sqrt (A B : FreqMap) :
    ((cosDot A B : ℕ) : ℝ) ≤
      Real.sqrt (cosNormA A B) * Real.sqrt (cosNormB A B) := by
  rw [cosDot_cast, cosNormA_cast, cosNormB_cast]
  exact Real.sum_mul_le_sqrt_mul_sqrt _ _ _

theorem cosineSimilarity_nonneg (A B : FreqMap) :
    0 ≤ cosineSimilarity A B := by
  rw [cosineSimilarity]
  split
  · exact le_refl 0
  · exact div_nonneg (Nat.cast_nonneg _)
      (mul_nonneg (Real.sqrt_nonneg _) (Real.sqrt_nonneg _))

theorem cosineSimilarity_le_one (A B : FreqMap) :
    cosineSimilarity A B ≤ 1 := by
  rw [cosineSimilarity]
  split
  · norm_num
  · exact div_le_one_of_le₀ (cosDot_le_sqrt_mul_sqrt A B)
      (mul_nonneg (Real.sqrt_nonneg _) (Real.sqrt_nonneg _))

theorem cosNormA_nil_left (B : FreqMap) : cosNormA [] B = 0 := by
  apply List.sum_eq_zero
  intro x hx
  rcases List.mem_map.mp hx with ⟨k, _, hk⟩
  rw [← hk, freqGet_nil]
  rfl

theorem cosNormB_nil_right (A : FreqMap) : cosNormB A [] = 0 := by
  apply List.sum_eq_zero
  intro x hx
  rcases List.mem_map.mp hx with ⟨k, _, hk⟩
  rw [← hk, freqGet_nil]
  rfl

theorem cosineSimilarity_self (A : FreqMap) (h : cosNormA A A ≠ 0) :
    cosineSimilarity A A = 1 := by
  have hBA : cosNormB A A = cosNormA A A := rfl
  have hDA : cosDot A A = cosNormA A A := rfl
  rw [cosineSimilarity, if_neg (by simp [hBA, h])]
  rw [hDA, hBA, Real.mul_self_sqrt (Nat.cast_nonneg _)]
  exact div_self (Nat.cast_ne_zero.mpr h)

theorem cosNormA_self_ne_zero (ts : List String) (h : ts ≠ []) :
    cosNormA (buildFrequency ts) (buildFrequency ts) ≠ 0 := by
  rcases List.exists_mem_of_ne_nil ts h with ⟨t0, ht0⟩
  have hget : freqGet (buildFrequency ts) t0 ≠ 0 := by
    rw [freqGet_buildFrequency]
    exact Nat.pos_iff_ne_zero.mp (List.count_pos_iff.mpr ht0)
  have hkey : t0 ∈ cosKeys (buildFrequency ts) (buildFrequency ts) := by
    apply mem_setDedup.mpr
    apply List.mem_append_left
    rw [buildFrequency_keys]
    exact mem_setDedup.mpr ht0
  intro hcon
  have hall := List.sum_eq_zero_iff.mp hcon
  have : freqGet (buildFrequency ts) t0 * freqGet (buildFrequency ts) t0 = 0 :=
    hall _ (List.mem_map_of_mem _ hkey)
  rcases Nat.mul_eq_zero.mp this with h0 | h0 <;> exact hget h0

/-! Claim C5: cosine similarity is safe and bounded -/

/-- C5: cosine similarity always lies in [0,1]; it is 0 whenever either
squared norm is zero (in particular whenever either map is empty); and in
the dividing branch the denominator is nonzero. -/
theorem claim_C5 (A B : FreqMap) :
    (0 ≤ cosineSimilarity A B ∧ cosineSimilarity A B ≤ 1) ∧
    ((cosNormA A B = 0 ∨ cosNormB A B = 0) → cosineSimilarity A B = 0) ∧
    (A = [] → cosineSimilarity A B = 0) ∧
    (B = [] → cosineSimilarity A B = 0) ∧
    (¬(cosNormA A B = 0 ∨ cosNormB A B = 0) →
      Real.sqrt (cosNormA A B) * Real.sqrt (cosNormB A B) ≠ 0) := by
  refine ⟨⟨cosineSimilarity_nonneg A B, cosineSimilarity_le_one A B⟩, ?_, ?_, ?_, ?_⟩
  · intro h
    rw [cosineSimilarity, if_pos h]
  · intro h
    subst h
    rw [cosineSimilarity, if_pos (Or.inl (cosNormA_nil_left B))]
  · intro h
    subst h
    rw [cosineSimilarity, if_pos (Or.inr (cosNormB_nil_right A))]
  · intro h
    push_neg at h
    have h1 : (0 : ℝ) < Real.sqrt (cosNormA A B) :=
      Real.sqrt_pos.mpr (by exact_mod_cast Nat.pos_of_ne_zero h.1)
    have h2 : (0 : ℝ) < Real.sqrt (cosNormB A B) :=
      Real.sqrt_pos.mpr (by exact_mod_cast Nat.pos_of_ne_zero h.2)
    exact ne_of_gt (mul_pos h1 h2)

/-- Witness for C5: a pair with an empty second map has similarity 0. -/
theorem claim_C5_witness :
    cosineSimilarity [("x", 1)] [] = 0 :=
  (claim_C5 [("x", 1)] []).2.2.2.1 rfl

/-! Helper lemmas: top-keyword extraction -/

theorem countDescLe_trans (a b c : String × Nat) :
    countDescLe a b → countDescLe b c → countDescLe a c := by
  simp only [countDescLe, decide_eq_true_eq]
  omega

theorem countDescLe_total (a b : String × Nat) :
    countDescLe a b || countDescLe b a := by
  simp only [countDescLe, Bool.or_eq_true, decide_eq_true_eq]
  omega

theorem matchResultOf_eq (jd_text resume_text : String) :
    matchResultOf jd_text resume_text =
      matchKeywords (extractTopKeywords (tokenize jd_text 2) 200)
        (extractTopKeywords (tokenize resume_text 2) 400) := rfl

theorem extractTopKeywords_nodup (tokens : List String) (topK : Nat) :
    (extractTopKeywords tokens topK).Nodup := by
  rw [extractTopKeywords]
  have hperm : List.Perm (((buildFrequency tokens).mergeSort countDescLe).map Prod.fst)
      ((buildFrequency tokens).map Prod.fst) :=
    (List.mergeSort_perm _ _).map _
  have hnd : (((buildFrequency tokens).mergeSort countDescLe).map Prod.fst).Nodup :=
    hperm.nodup_iff.mpr (buildFrequency_keys_nodup tokens)
  exact List.Nodup.sublist ((List.take_sublist _ _).map Prod.fst) hnd

theorem extractTopKeywords_mono (tokens : List String) {m n : Nat} (h : m ≤ n) :
    extractTopKeywords tokens m <+: extractTopKeywords tokens n := by
  rw [extractTopKeywords, extractTopKeywords]
  apply List.IsPrefix.map
  have ht : (((buildFrequency tokens).mergeSort countDescLe).take n).take m =
      ((buildFrequency tokens).mergeSort countDescLe).take m := by
    rw [List.take_take, Nat.min_eq_left h]
  rw [← ht]
  exact List.take_prefix m _

theorem extractTopKeywords_ne_nil (tokens : List String) (topK : Nat)
    (h1 : tokens ≠ []) (h2 : 0 < topK) : extractTopKeywords tokens topK ≠ [] := by
  intro hcon
  have hlen : (buildFrequency tokens).length ≠ 0 := by
    intro h0
    exact buildFrequency_ne_nil h1 (List.length_eq_zero.mp h0)
  have hc := congrArg List.length hcon
  rw [extractTopKeywords] at hc
  simp only [List.length_map, List.length_take, List.length_mergeSort,
    List.length_nil] at hc
  omega

/-! Claim C2: identical inputs -/

/-- C2 is false as stated: the non-empty string "a" (a stopword-length
token source producing no tokens) passes validation, yet the semantic
similarity of the pair ("a", "a") is 0, not 1. -/
theorem claim_C2_counterexample :
    ("a" : String) ≠ "" ∧
    (matchCore "a" "a").semantic_similarity = 0 ∧
    (matchCore "a" "a").semantic_similarity ≠ 1 := by
  have ht : tokenize "a" 2 = [] := by decide
  have hs : (matchCore "a" "a").semantic_similarity = 0 := by
    show semanticSimilarityOf "a" "a" = 0
    simp only [semanticSimilarityOf]
    rw [ht]
    rfl
  refine ⟨by decide, hs, ?_⟩
  rw [hs]
  norm_num

/-- C2 (amended): for every string s whose tokenization is non-empty,
using s as both jd_text and resume_text yields semantic similarity 1,
overlap percentage 100, no missing skills, match score 100, and the
excellent-fit tier message first. -/
theorem claim_C2 (s : String) (h : tokenize s 2 ≠ []) :
    (matchCore s s).semantic_similarity = 1 ∧
    (matchCore s s).overlap_pct = 100 ∧
    (matchCore s s).missing_skills = [] ∧
    (matchCore s s).match_score = 100 ∧
    (matchCore s s).feedback[0]? = some excellentMsg := by
  have hsim : semanticSimilarityOf s s = 1 := by
    simp only [semanticSimilarityOf]
    exact cosineSimilarity_self _ (cosNormA_self_ne_zero _ h)
  have hsub : ∀ k ∈ extractTopKeywords (tokenize s 2) 200,
      k ∈ extractTopKeywords (tokenize s 2) 400 :=
    fun k hk => (extractTopKeywords_mono _ (by norm_num)).sublist.subset hk
  have hnodup : (extractTopKeywords (tokenize s 2) 200).Nodup :=
    extractTopKeywords_nodup _ _
  have hne : extractTopKeywords (tokenize s 2) 200 ≠ [] :=
    extractTopKeywords_ne_nil _ _ h (by norm_num)
  have hjdset : setDedup (extractTopKeywords (tokenize s 2) 200) =
      extractTopKeywords (tokenize s 2) 200 := setDedup_of_nodup hnodup
  have hlen0 : (extractTopKeywords (tokenize s 2) 200).length ≠ 0 := by
    intro h0
    exact hne (List.length_eq_zero.mp h0)
  have hmiss : (matchResultOf s s).missing = [] := by
    rw [matchResultOf_eq, matchKeywords_missing, hjdset]
    apply List.filter_eq_nil_iff.mpr
    intro k hk
    have hm : k ∈ setDedup (extractTopKeywords (tokenize s 2) 400) :=
      mem_setDedup.mpr (hsub k hk)
    simp [List.contains, List.elem_eq_mem, hm]
  have hmatched : (matchResultOf s s).matched =
      extractTopKeywords (tokenize s 2) 200 := by
    rw [matchResultOf_eq, matchKeywords_matched, hjdset]
    apply List.filter_eq_self.mpr
    intro k hk
    have hm : k ∈ setDedup (extractTopKeywords (tokenize s 2) 400) :=
      mem_setDedup.mpr (hsub k hk)
    simp [List.contains, List.elem_eq_mem, hm]
  have hov : (matchResultOf s s).overlapPct = 100 := by
    rw [matchResultOf_eq, matchKeywords_overlapPct]
    rw [show (matchKeywords (extractTopKeywords (tokenize s 2) 200)
      (extractTopKeywords (tokenize s 2) 400)).matched =
        extractTopKeywords (tokenize s 2) 200 from hmatched]
    rw [hjdset, if_neg hlen0, div_self (Nat.cast_ne_zero.mpr hlen0), one_mul]
  have hfs : finalScoreOf s s = 100 := by
    simp only [finalScoreOf]
    rw [hsim, hov]
    norm_num
  have hms : matchScoreOf s s = 100 := by
    simp only [matchScoreOf]
    rw [hfs]
    norm_num
  refine ⟨hsim, hov, hmiss, hms, ?_⟩
  show (generateFeedback (matchScoreOf s s) (matchResultOf s s).missing)[0]? =
    some excellentMsg
  rw [hms, hmiss]
  norm_num [generateFeedback]

/-- Witness for the amended C2 at the concrete input "python". -/
theorem claim_C2_witness :
    tokenize "python" 2 ≠ [] ∧
    ((matchCore "python" "python").semantic_similarity = 1 ∧
     (matchCore "python" "python").overlap_pct = 100 ∧
     (matchCore "python" "python").missing_skills = [] ∧
     (matchCore "python" "python").match_score = 100 ∧
     (matchCore "python" "python").feedback[0]? = some excellentMsg) :=
  ⟨by decide, claim_C2 "python" (by decide)⟩

/-! Claim C8: top-keyword extraction -/

/-- C8: extractTopKeywords returns at most topK distinct tokens in
non-increasing order of frequency in the token sequence; sorting is
stable, i.e. the entries of each fixed count keep the frequency map's
(first-occurrence) order, and the frequency map's keys are exactly the
tokens in first-occurrence order; the pipeline calls the extractor with
topK 200 for the jd and 400 for the resume. -/
theorem claim_C8 (tokens : List String) (topK : Nat) :
    (extractTopKeywords tokens topK).length ≤ topK ∧
    (extractTopKeywords tokens topK).Nodup ∧
    (extractTopKeywords tokens topK).Pairwise
      (fun u v => tokens.count v ≤ tokens.count u) ∧
    (∀ c : Nat,
      ((buildFrequency tokens).mergeSort countDescLe).filter
        (fun e => e.2 == c) =
      (buildFrequency tokens).filter (fun e => e.2 == c)) ∧
    (buildFrequency tokens).map Prod.fst = setDedup tokens ∧
    (∀ jd_text resume_text : String,
      matchResultOf jd_text resume_text =
        matchKeywords (extractTopKeywords (tokenize jd_text 2) 200)
          (extractTopKeywords (tokenize resume_text 2) 400)) := by
  refine ⟨?_, extractTopKeywords_nodup tokens topK, ?_, ?_,
    buildFrequency_keys tokens, fun jd res => matchResultOf_eq jd res⟩
  · rw [extractTopKeywords]
    simp only [List.length_map, List.length_take]
    omega
  · rw [extractTopKeywords]
    have hsorted : (((buildFrequency tokens).mergeSort countDescLe).take
        topK).Pairwise (fun a b => countDescLe a b) :=
      List.Pairwise.sublist (List.take_sublist _ _)
        (List.sorted_mergeSort countDescLe_trans countDescLe_total _)
    rw [List.pairwise_map]
    apply List.Pairwise.imp_of_mem ?_ hsorted
    intro a b ha hb hr
    have hamem : a ∈ buildFrequency tokens := by
      have := (List.take_sublist _ _).subset ha
      rwa [List.mem_mergeSort] at this
    have hbmem : b ∈ buildFrequency tokens := by
      have := (List.take_sublist _ _).subset hb
      rwa [List.mem_mergeSort] at this
    have hca := buildFrequency_entry_count tokens a hamem
    have hcb := buildFrequency_entry_count tokens b hbmem
    simp only [countDescLe, decide_eq_true_eq] at hr
    rw [← hca, ← hcb]
    exact hr
  · intro c
    have hFsub : (buildFrequency tokens).filter (fun e => e.2 == c) <+
        buildFrequency tokens := List.filter_sublist _
    have hFpair : ((buildFrequency tokens).filter (fun e => e.2 == c)).Pairwise
        (fun a b => countDescLe a b) := by
      apply List.pairwise_of_forall_mem_list
      intro a ha b hb
      have h1 : a.2 = c := by simpa using (List.mem_filter.mp ha).2
      have h2 : b.2 = c := by simpa using (List.mem_filter.mp hb).2
      simp [countDescLe, h1, h2]
    have hF2 : (buildFrequency tokens).filter (fun e => e.2 == c) <+
        (buildFrequency tokens).mergeSort countDescLe :=
      List.sublist_mergeSort countDescLe_trans countDescLe_total hFpair hFsub
    have hFf : ((buildFrequency tokens).filter (fun e => e.2 == c)).filter
        (fun e => e.2 == c) =
        (buildFrequency tokens).filter (fun e => e.2 == c) :=
      List.filter_eq_self.mpr fun e he => (List.mem_filter.mp he).2
    have h3 : (buildFrequency tokens).filter (fun e => e.2 == c) <+
        ((buildFrequency tokens).mergeSort countDescLe).filter
          (fun e => e.2 == c) := by
      have := hF2.filter (fun e => e.2 == c)
      rwa [hFf] at this
    have hperm : (((buildFrequency tokens).mergeSort countDescLe).filter
        (fun e => e.2 == c)).Perm
        ((buildFrequency tokens).filter (fun e => e.2 == c)) :=
      (List.mergeSort_perm _ _).filter _
    exact (h3.eq_of_length hperm.length_eq.symm).symm

/-- Witness for C8: key order of a concrete frequency map. -/
theorem claim_C8_witness :
    (buildFrequency ["x", "y", "x"]).map Prod.fst = setDedup ["x", "y", "x"] :=
  (claim_C8 ["x", "y", "x"] 200).2.2.2.2.1

/-! Claim C1: the composed match score -/

theorem overlapPct_nonneg (jdK resK : List String) :
    0 ≤ (matchKeywords jdK resK).overlapPct := by
  rw [matchKeywords_overlapPct]
  split
  · norm_num
  · positivity

theorem overlapPct_le_100 (jdK resK : List String) :
    (matchKeywords jdK resK).overlapPct ≤ 100 := by
  rw [matchKeywords_overlapPct]
  split
  · norm_num
  · rename_i hne
    have hlen : (matchKeywords jdK resK).matched.length ≤ (setDedup jdK).length := by
      rw [matchKeywords_matched]
      exact List.length_filter_le _ _
    have hq : ((matchKeywords jdK resK).matched.length : ℚ) /
        ((setDedup jdK).length : ℚ) ≤ 1 :=
      div_le_one_of_le₀ (by exact_mod_cast hlen) (Nat.cast_nonneg _)
    calc ((matchKeywords jdK resK).matched.length : ℚ) /
        ((setDedup jdK).length : ℚ) * 100 ≤ 1 * 100 :=
          mul_le_mul_of_nonneg_right hq (by norm_num)
      _ = 100 := one_mul 100

theorem finalScoreOf_nonneg (jd_text resume_text : String) :
    0 ≤ finalScoreOf jd_text resume_text := by
  have h1 : 0 ≤ semanticSimilarityOf jd_text resume_text :=
    cosineSimilarity_nonneg _ _
  have h3 : (0 : ℝ) ≤ ((matchResultOf jd_text resume_text).overlapPct : ℝ) := by
    rw [matchResultOf_eq]
    exact_mod_cast overlapPct_nonneg _ _
  simp only [finalScoreOf]
  nlinarith

theorem finalScoreOf_le_100 (jd_text resume_text : String) :
    finalScoreOf jd_text resume_text ≤ 100 := by
  have h1 : 0 ≤ semanticSimilarityOf jd_text resume_text :=
    cosineSimilarity_nonneg _ _
  have h2 : semanticSimilarityOf jd_text resume_text ≤ 1 :=
    cosineSimilarity_le_one _ _
  have h3 : (0 : ℝ) ≤ ((matchResultOf jd_text resume_text).overlapPct : ℝ) := by
    rw [matchResultOf_eq]
    exact_mod_cast overlapPct_nonneg _ _
  have h4 : ((matchResultOf jd_text resume_text).overlapPct : ℝ) ≤ 100 := by
    rw [matchResultOf_eq]
    exact_mod_cast overlapPct_le_100 _ _
  simp only [finalScoreOf]
  nlinarith

theorem round_le_round {x y : ℝ} (h : x ≤ y) : round x ≤ round y := by
  rw [round_eq, round_eq]
  exact Int.floor_le_floor (by linarith)

theorem matchCore_match_score (jd_text resume_text : String) :
    (matchCore jd_text resume_text).match_score =
      matchScoreOf jd_text resume_text := rfl

theorem matchCore_semantic_similarity (jd_text resume_text : String) :
    (matchCore jd_text resume_text).semantic_similarity =
      semanticSimilarityOf jd_text resume_text := rfl

theorem matchCore_overlap_pct (jd_text resume_text : String) :
    (matchCore jd_text resume_text).overlap_pct =
      (matchResultOf jd_text resume_text).overlapPct := rfl

/-- C1: the match score of the response equals the weighted blend of the
response's own semantic similarity (scaled to percent, weight 0.6) and
overlap percentage (weight 0.4), rounded to two decimals by
round-half-up (= round-half-away-from-zero for these non-negative
values), and it always lies in [0, 100]. -/
theorem claim_C1 (jd_text resume_text : String) :
    ((matchCore jd_text resume_text).match_score : ℝ) =
      ((round ((((matchCore jd_text resume_text).semantic_similarity * 100) *
        0.6 + ((matchCore jd_text resume_text).overlap_pct : ℝ) * 0.4) *
          100) : ℤ) : ℝ) / 100 ∧
    0 ≤ (matchCore jd_text resume_text).match_score ∧
    (matchCore jd_text resume_text).match_score ≤ 100 ∧
    ∃ n : ℤ, (matchCore jd_text resume_text).match_score = (n : ℚ) / 100 := by
  have hz1 : (0 : ℤ) ≤ round (finalScoreOf jd_text resume_text * 100) := by
    have h0 : round ((0 : ℝ)) ≤ round (finalScoreOf jd_text resume_text * 100) :=
      round_le_round (by nlinarith [finalScoreOf_nonneg jd_text resume_text])
    simpa using h0
  have hz2 : round (finalScoreOf jd_text resume_text * 100) ≤ 10000 := by
    have h0 : round (finalScoreOf jd_text resume_text * 100) ≤
        round ((10000 : ℝ)) :=
      round_le_round (by nlinarith [finalScoreOf_le_100 jd_text resume_text])
    simpa using h0
  have harg : ((semanticSimilarityOf jd_text resume_text * 100) * 0.6 +
      ((matchResultOf jd_text resume_text).overlapPct : ℝ) * 0.4) =
      finalScoreOf jd_text resume_text := rfl
  refine ⟨?_, ?_, ?_, ?_⟩
  · rw [matchCore_match_score, matchCore_semantic_similarity,
      matchCore_overlap_pct, harg]
    simp only [matchScoreOf]
    push_cast
    ring
  · rw [matchCore_match_score]
    simp only [matchScoreOf]
    apply div_nonneg _ (by norm_num)
    exact_mod_cast hz1
  · rw [matchCore_match_score]
    simp only [matchScoreOf]
    rw [div_le_iff₀ (by norm_num)]
    exact_mod_cast hz2
  · exact ⟨round (finalScoreOf jd_text resume_text * 100), by
      rw [matchCore_match_score]
      rfl⟩

/-- Witness for C1 at a concrete input pair. -/
theorem claim_C1_witness :
    0 ≤ (matchCore "python developer" "docker tools").match_score ∧
    (matchCore "python developer" "docker tools").match_score ≤ 100 :=
  ⟨(claim_C1 "python developer" "docker tools").2.1,
   (claim_C1 "python developer" "docker tools").2.2.1⟩

end ResumeMatcher
